import Mathlib

set_option linter.unusedVariables false

namespace ValidatorDashboard

/-! Shallow embedding of the outbound request governor of the
`validator-dashboard-beaconcha` repository: the adaptive rate limiter
(`internal/ratelimiter`), the two retrying client variants
(`internal/beaconcha`), the dispatch queue (`queueRawRequest`), the two
TTL caches, cache-key derivation, request validation and wei parsing.

Timestamps are natural numbers (nanoseconds since some epoch, with `0`
reserved for Go's zero `time.Time`); durations parsed from headers are
integers, since `strconv.Atoi` can yield negative values. -/

/-- Rate limit information parsed from response headers
(`ratelimiter.RateLimitInfo`): `remaining` requests left in the window,
`reset` time until the window resets, `window` size. -/
structure RateLimitInfo where
  remaining : Int
  reset : Int
  window : Int
deriving Repr, DecidableEq

/-- State of `ratelimiter.GlobalRateLimiter` relevant to the adaptive
deadline: the `nextAllowed` timestamp (`0` encodes Go's zero `time.Time`,
the initial value of the field). -/
structure GlobalRateLimiter where
  nextAllowed : Nat
deriving Repr, DecidableEq

/-- `GlobalRateLimiter.UpdateFromHeaders`, executed at time `now`: when the
headers report `Remaining == 0 && Reset > 0` it records
`nextAllowed = time.Now().Add(info.Reset)`; otherwise the state is
unchanged.  A `none` argument models the `info == nil` early return. -/
def updateFromHeaders (g : GlobalRateLimiter) (info : Option RateLimitInfo)
    (now : Nat) : GlobalRateLimiter :=
  match info with
  | none => g
  | some i =>
    if i.remaining = 0 ∧ 0 < i.reset then
      { g with nextAllowed := now + i.reset.toNat }
    else g

/-- `GlobalRateLimiter.WaitAdaptive`, modelled as the time at which an
uncancelled call started at `now` returns.  `bucket` models
`rate.Limiter.Wait`: called at time `t` it returns at some time
`bucket t ≥ t` (how long the token bucket blocks is arbitrary).  The code
first sleeps until `nextAllowed` when that deadline is nonzero and in the
future, then waits on the token bucket. -/
def waitAdaptiveDone (g : GlobalRateLimiter) (now : Nat) (bucket : Nat → Nat) : Nat :=
  let t1 := if g.nextAllowed ≠ 0 ∧ now < g.nextAllowed then g.nextAllowed else now
  bucket t1

/-- Outcome of a single `httpClient.Do` call made by either client
variant: a transport-level failure, or a response with its HTTP status,
parsed rate-limit header fields and body. -/
inductive Attempt where
  | netError (msg : String)
  | response (status : Nat) (remaining : Int) (reset : Int) (body : String)
deriving Repr, DecidableEq

/-- Status of an `Attempt`, `0` for a transport failure. -/
def Attempt.statusOf : Attempt → Nat
  | .netError _ => 0
  | .response s _ _ _ => s

/-- Errors `doRequestWithRetry` accumulates in its `lastErr` variable:
the wrapped `Do` error (`"http request: %w"`) or the formatted 429 error
(`"rate limited (429): %s"`). -/
inductive LastErr where
  | httpRequest (msg : String)
  | rateLimited (body : String)
deriving Repr, DecidableEq

/-- Errors the two client variants return to callers:
`maxRetriesExceeded` is the terminal `"max retries exceeded: %w"` wrapper
of `doRequestWithRetry`, `transport` the unwrapped `Do` error the worker
variant sends back, `upstreamStatus` the worker's non-200 error, and
`queueFull` / `requestTimeout` the two `queueRawRequest` failures. -/
inductive GoError where
  | maxRetriesExceeded (last : Option LastErr)
  | transport (msg : String)
  | upstreamStatus (status : Nat) (body : String)
  | queueFull
  | requestTimeout
deriving Repr, DecidableEq

/-- Loop of `Client.doRequestWithRetry` (part_001).  `upstream i` is the
outcome of the i-th `Do` call (0-based); `fuel` is the number of loop
iterations left (`maxRetries + 1 - attempt`); `lastErr` accumulates the
last failure.  Returns the Go result (`resp.status`, `body`, or error)
paired with the number of `Do` calls performed.  A transport error and a
429 response both set `lastErr` and `continue`; any other response
returns immediately with its status and body. -/
def doLoop (upstream : Nat → Attempt) :
    Nat → Nat → Option LastErr → (Except GoError (Nat × String)) × Nat
  | _, 0, lastErr => (.error (.maxRetriesExceeded lastErr), 0)
  | attempt, fuel + 1, _ =>
    match upstream attempt with
    | .netError msg =>
      let r := doLoop upstream (attempt + 1) fuel (some (.httpRequest msg))
      (r.1, r.2 + 1)
    | .response status remaining reset body =>
      if status = 429 then
        let r := doLoop upstream (attempt + 1) fuel (some (.rateLimited body))
        (r.1, r.2 + 1)
      else
        (.ok (status, body), 1)

/-- `Client.doRequestWithRetry` (part_001): the loop runs for
`attempt := 0; attempt <= maxRetries; attempt++`, i.e. `maxRetries + 1`
iterations, starting with `lastErr = nil`. -/
def doRequestWithRetry (upstream : Nat → Attempt) (maxRetries : Nat) :
    (Except GoError (Nat × String)) × Nat :=
  doLoop upstream 0 (maxRetries + 1) none

/-- Attempt loop of `Client.startWorker` (part_000) for one dequeued
request.  Each iteration increments `attempt` and calls `Do`; a
transport error is sent back immediately, a 429 with `attempt <= 3`
sleeps and retries, any other terminating response yields the body on
status 200 and an `upstream status` error otherwise.  `fuel` bounds the
recursion; starting from `attempt = 0` with fuel 4 the fuel never runs
out because the fourth iteration always terminates. -/
def workerLoop (upstream : Nat → Attempt) : Nat → Nat → (Except GoError String) × Nat
  | _, 0 => (.error (.maxRetriesExceeded none), 0)
  | attempt, fuel + 1 =>
    let a := attempt + 1
    match upstream attempt with
    | .netError msg => (.error (.transport msg), 1)
    | .response status remaining reset body =>
      if status = 429 ∧ a ≤ 3 then
        let r := workerLoop upstream a fuel
        (r.1, r.2 + 1)
      else if status ≠ 200 then (.error (.upstreamStatus status body), 1)
      else (.ok body, 1)

/-- One request processed by the worker goroutine of part_000. -/
def workerRun (upstream : Nat → Attempt) : (Except GoError String) × Nat :=
  workerLoop upstream 0 4

/-- `Client.queueRawRequest` (part_000): a non-blocking send onto the
100-buffered request channel (the `default` branch fails with the
`queue full` error when the buffer is full), then a wait for the worker
reply raced against a 30-second timer.  `queueLen` is the channel
occupancy at the send; `reply` is `some r` when the worker replies
within 30 seconds and `none` otherwise.  The caller's context is not
consulted anywhere. -/
def queueRawRequest (queueLen : Nat) (reply : Option (Except GoError String)) :
    Except GoError String :=
  if 100 ≤ queueLen then .error .queueFull
  else
    match reply with
    | some r => r
    | none => .error .requestTimeout

/-- One cache entry: stored value and its absolute expiration time
(`cacheItem` of the third document in `internal/beaconcha/client.go`). -/
structure CacheEntry (V : Type) where
  value : V
  expiration : Nat
deriving Repr, DecidableEq

/-- Functional update of the association list backing a Go map:
`m[key] = e` keeps all other keys and binds `key` to `e`. -/
def assocSet {V : Type} (items : List (String × CacheEntry V)) (k : String)
    (e : CacheEntry V) : List (String × CacheEntry V) :=
  (k, e) :: items.filter (fun p => p.1 != k)

/-- Lookup in the association list backing a Go map. -/
def assocFind {V : Type} (items : List (String × CacheEntry V)) (k : String) :
    Option (CacheEntry V) :=
  (items.find? (fun p => p.1 == k)).map (·.2)

/-- The cache of the third document in `internal/beaconcha/client.go`
(package `cache`, type `Cache`): a map from keys to entries plus the
default TTL.  The mutex is not represented; operations are the
serialized critical sections it enforces. -/
structure Cache (V : Type) where
  items : List (String × CacheEntry V)
  ttl : Nat
deriving Repr, DecidableEq

/-- `Cache.Get` at time `now`: an entry is returned unless it is absent
or `time.Now().After(expiration)`, i.e. `now > expiration`. -/
def Cache.get {V : Type} (c : Cache V) (now : Nat) (k : String) : Option V :=
  match assocFind c.items k with
  | none => none
  | some it => if now > it.expiration then none else some it.value

/-- `Cache.SetWithTTL`: stores the value with expiration `now + ttl`,
overwriting unconditionally. -/
def Cache.setWithTTL {V : Type} (c : Cache V) (now : Nat) (k : String) (v : V)
    (ttl : Nat) : Cache V :=
  { c with items := assocSet c.items k ⟨v, now + ttl⟩ }

/-- `Cache.Set`: `SetWithTTL` with the cache's default TTL. -/
def Cache.set {V : Type} (c : Cache V) (now : Nat) (k : String) (v : V) : Cache V :=
  c.setWithTTL now k v c.ttl

/-- `Cache.cleanup`: removes every entry with `now.After(expiration)`. -/
def Cache.cleanup {V : Type} (c : Cache V) (now : Nat) : Cache V :=
  { c with items := c.items.filter (fun p => ! decide (now > p.2.expiration)) }

/-- Tail of `Cache.GetOrSet` once the write lock is held and the
double-check missed: invoke the loader; on error propagate it without
touching the map, on success store the value with the default TTL.  The
last component counts loader invocations. -/
def Cache.loadStore {V E : Type} (c : Cache V) (now : Nat) (k : String)
    (loader : Except E V) : Except E V × Cache V × Nat :=
  match loader with
  | .error e => (.error e, c, 1)
  | .ok v => (.ok v, { c with items := assocSet c.items k ⟨v, now + c.ttl⟩ }, 1)

/-- `Cache.GetOrSet` for one caller executing at time `now`, with a
deterministic loader.  First the lock-free `Get`; on a miss, the write
lock is taken and the entry double-checked (`exists && now.Before(expiration)`,
i.e. `now < expiration`); on a second miss the loader runs via
`loadStore`.  The mutex serializes the lock-held sections, so a group of
concurrent callers is modelled by iterating this function
(`getOrSetMany`). -/
def Cache.getOrSet {V E : Type} (c : Cache V) (now : Nat) (k : String)
    (loader : Except E V) : Except E V × Cache V × Nat :=
  match c.get now k with
  | some v => (.ok v, c, 0)
  | none =>
    match assocFind c.items k with
    | some it =>
      if now < it.expiration then (.ok it.value, c, 0)
      else c.loadStore now k loader
    | none => c.loadStore now k loader

/-- `n` callers of `Cache.GetOrSet` for the same key and loader, in the
order the mutex serializes them, all at time `now`: the list of their
results, the final cache state and the total number of loader
invocations. -/
def Cache.getOrSetMany {V E : Type} (c : Cache V) (now : Nat) (k : String)
    (loader : Except E V) : Nat → List (Except E V) × Cache V × Nat
  | 0 => ([], c, 0)
  | n + 1 =>
    let r := c.getOrSet now k loader
    let rest := Cache.getOrSetMany r.2.1 now k loader n
    (r.1 :: rest.1, rest.2.1, r.2.2 + rest.2.2)

/-- One entry of `cache.MemoryCache` (`internal/cache/cache.go`):
value and absolute `expiresAt`. -/
structure MemItem (V : Type) where
  value : V
  expiresAt : Nat
deriving Repr, DecidableEq

/-- `cache.MemoryCache`: map from keys to items plus the fixed TTL. -/
structure MemoryCache (V : Type) where
  store : List (String × MemItem V)
  ttl : Nat
deriving Repr, DecidableEq

/-- `MemoryCache.Set`: stores the value with expiration `now + ttl`. -/
def MemoryCache.set {V : Type} (c : MemoryCache V) (now : Nat) (k : String)
    (v : V) : MemoryCache V :=
  { c with store := (k, ⟨v, now + c.ttl⟩) :: c.store.filter (fun p => p.1 != k) }

/-- `MemoryCache.Get` at time `now`: a miss on an absent key leaves the
store alone; an expired entry (`now.After(expiresAt)`, i.e.
`now > expiresAt`) is deleted and reported missing; otherwise the value
is returned. -/
def MemoryCache.get {V : Type} (c : MemoryCache V) (now : Nat) (k : String) :
    Option V × MemoryCache V :=
  match (c.store.find? (fun p => p.1 == k)).map (·.2) with
  | none => (none, c)
  | some it =>
    if now > it.expiresAt then
      (none, { c with store := c.store.filter (fun p => p.1 != k) })
    else (some it.value, c)

/-- One pass of `MemoryCache.janitor` at time `now`: deletes every entry
with `now.After(expiresAt)`. -/
def MemoryCache.janitorSweep {V : Type} (c : MemoryCache V) (now : Nat) :
    MemoryCache V :=
  { c with store := c.store.filter (fun p => ! decide (now > p.2.expiresAt)) }

/-! SHA-256 (`crypto/sha256` from the Go standard library), implemented
over byte lists with 32-bit words as naturals reduced mod `2^32`.  Only
`generateCacheKey` uses it; no theorem depends on digest values. -/

/-- 32-bit right rotation. -/
def rotr32 (x n : Nat) : Nat :=
  ((x >>> n) ||| (x <<< (32 - n))) % 2 ^ 32

/-- SHA-256 small sigma 0. -/
def ssig0 (x : Nat) : Nat := rotr32 x 7 ^^^ rotr32 x 18 ^^^ (x >>> 3)

/-- SHA-256 small sigma 1. -/
def ssig1 (x : Nat) : Nat := rotr32 x 17 ^^^ rotr32 x 19 ^^^ (x >>> 10)

/-- SHA-256 big sigma 0. -/
def bsig0 (x : Nat) : Nat := rotr32 x 2 ^^^ rotr32 x 13 ^^^ rotr32 x 22

/-- SHA-256 big sigma 1. -/
def bsig1 (x : Nat) : Nat := rotr32 x 6 ^^^ rotr32 x 11 ^^^ rotr32 x 25

/-- SHA-256 choice function. -/
def chF (e f g : Nat) : Nat := (e &&& f) ^^^ ((e ^^^ (2 ^ 32 - 1)) &&& g)

/-- SHA-256 majority function. -/
def majF (a b c : Nat) : Nat := (a &&& b) ^^^ (a &&& c) ^^^ (b &&& c)

/-- SHA-256 round constants (decimal). -/
def sha256K : List Nat :=
  [1116352408, 1899447441, 3049323471, 3921009573, 961987163, 1508970993,
   2453635748, 2870763221, 3624381080, 310598401, 607225278, 1426881987,
   1925078388, 2162078206, 2614888103, 3248222580, 3835390401, 4022224774,
   264347078, 604807628, 770255983, 1249150122, 1555081692, 1996064986,
   2554220882, 2821834349, 2952996808, 3210313671, 3336571891, 3584528711,
   113926993, 338241895, 666307205, 773529912, 1294757372, 1396182291,
   1695183700, 1986661051, 2177026350, 2456956037, 2730485921, 2820302411,
   3259730800, 3345764771, 3516065817, 3600352804, 4094571909, 275423344,
   430227734, 506948616, 659060556, 883997877, 958139571, 1322822218,
   1537002063, 1747873779, 1955562222, 2024104815, 2227730452, 2361852424,
   2428436474, 2756734187, 3204031479, 3329325298]

/-- SHA-256 initial hash state (decimal). -/
def sha256H0 : List Nat :=
  [1779033703, 3144134277, 1013904242, 2773480762,
   1359893119, 2600822924, 528734635, 1541459225]

/-- Big-endian byte serialization of `n` into `len` bytes. -/
def natToBE (n len : Nat) : List Nat :=
  (List.range len).map (fun i => (n >>> (8 * (len - 1 - i))) % 256)

/-- SHA-256 padding: append `0x80`, zeros to 56 mod 64, then the bit
length as 8 big-endian bytes. -/
def sha256Pad (msg : List Nat) : List Nat :=
  let zeros := (119 - msg.length % 64) % 64
  msg ++ [0x80] ++ List.replicate zeros 0 ++ natToBE (msg.length * 8) 8

/-- Split a padded message into 64-byte blocks. -/
def sha256Blocks (l : List Nat) : List (List Nat) :=
  (List.range (l.length / 64)).map (fun i => (l.drop (64 * i)).take 64)

/-- First 16 words (big-endian) of a 64-byte block. -/
def blockWords (block : List Nat) : List Nat :=
  (List.range 16).map (fun i =>
    block.getD (4 * i) 0 * 2 ^ 24 + block.getD (4 * i + 1) 0 * 2 ^ 16 +
    block.getD (4 * i + 2) 0 * 2 ^ 8 + block.getD (4 * i + 3) 0)

/-- Extend the message schedule by one word. -/
def scheduleStep (w : List Nat) : List Nat :=
  let n := w.length
  w ++ [(ssig1 (w.getD (n - 2) 0) + w.getD (n - 7) 0 +
         ssig0 (w.getD (n - 15) 0) + w.getD (n - 16) 0) % 2 ^ 32]

/-- Full 64-word message schedule of a block. -/
def sha256Schedule (block : List Nat) : List Nat :=
  (List.range 48).foldl (fun w _ => scheduleStep w) (blockWords block)

/-- One SHA-256 compression round on the 8-word state. -/
def sha256Round (st : List Nat) (kw : Nat × Nat) : List Nat :=
  match st with
  | [a, b, c, d, e, f, g, h] =>
    let t1 := (h + bsig1 e + chF e f g + kw.1 + kw.2) % 2 ^ 32
    let t2 := (bsig0 a + majF a b c) % 2 ^ 32
    [(t1 + t2) % 2 ^ 32, a, b, c, (d + t1) % 2 ^ 32, e, f, g]
  | other => other

/-- Compress one block into the running hash state. -/
def sha256Compress (h : List Nat) (block : List Nat) : List Nat :=
  let w := sha256Schedule block
  let st := (sha256K.zip w).foldl sha256Round h
  (h.zip st).map (fun p => (p.1 + p.2) % 2 ^ 32)

/-- SHA-256 digest (32 bytes) of a byte list. -/
def sha256 (msg : List Nat) : List Nat :=
  let hh := (sha256Blocks (sha256Pad msg)).foldl sha256Compress sha256H0
  hh.foldr (fun w acc => natToBE w 4 ++ acc) []

/-- Lowercase hex digit. -/
def hexDigit (n : Nat) : Char :=
  if n < 10 then Char.ofNat (48 + n) else Char.ofNat (87 + n)

/-- Lowercase hex encoding of a byte list (`hex.EncodeToString`). -/
def hexEncode (bs : List Nat) : String :=
  String.mk (bs.foldr (fun b acc => hexDigit (b / 16) :: hexDigit (b % 16) :: acc) [])

/-- UTF-8 bytes of a string. -/
def strBytes (s : String) : List Nat :=
  s.toUTF8.toList.map (fun b => b.toNat)

/-- `ValidatorService.generateCacheKey` (`internal/service/validator.go`):
copy the IDs, `sort.Ints`, render each with `strconv.Itoa`, join with
commas; when the input list has more than 10 elements, replace the joined
string by the hex encoding of the first 8 bytes of its SHA-256 digest;
prefix with `"validators:"`. -/
def generateCacheKey (validatorIds : List Int) : String :=
  let sorted := validatorIds.mergeSort (fun a b => a ≤ b)
  let key := String.intercalate "," (sorted.map toString)
  if 10 < validatorIds.length then
    "validators:" ++ hexEncode ((sha256 (strBytes key)).take 8)
  else
    "validators:" ++ key

/-- The request body of `POST /validator`
(`models.ValidatorRequest`, fields used by validation). -/
structure ValidatorRequest where
  validatorIds : List Int
  chain : String
deriving Repr, DecidableEq

/-- A `api.ValidationError` value. -/
structure ValidationError where
  field : String
  message : String
deriving Repr, DecidableEq

/-- The per-ID loop of `Handler.validateValidatorRequest`: `seen` models
the `map[int]bool`; a negative ID fails first, then a duplicate. -/
def checkIds : List Int → List Int → Option ValidationError
  | [], _ => none
  | id :: rest, seen =>
    if id < 0 then
      some ⟨"validatorIds", "validator IDs must be non-negative integers"⟩
    else if id ∈ seen then
      some ⟨"validatorIds", "validator IDs must be unique"⟩
    else checkIds rest (id :: seen)

/-- `Handler.validateValidatorRequest` (`internal/api/handler.go`,
first document, lines 84-114): returns `none` for a valid request and
the first `ValidationError` otherwise. -/
def validateValidatorRequest (maxValidatorIDs : Nat) (req : ValidatorRequest) :
    Option ValidationError :=
  if req.validatorIds.length = 0 then
    some ⟨"validatorIds", "must contain at least 1 validator ID"⟩
  else if maxValidatorIDs < req.validatorIds.length then
    some ⟨"validatorIds", "must contain at most 100 validator IDs"⟩
  else
    match checkIds req.validatorIds [] with
    | some e => some e
    | none =>
      if req.chain = "" then
        some ⟨"chain", "must be provided and be one of: mainnet, hoodi"⟩
      else if req.chain ≠ "mainnet" ∧ req.chain ≠ "hoodi" then
        some ⟨"chain", "must be one of: mainnet, hoodi"⟩
      else none

/-- Go `big.Int.SetString(s, 10)`: an optional sign followed by at least
one decimal digit, the whole string consumed. -/
def bigIntSetString (s : String) : Option Int :=
  match s.data with
  | [] => none
  | c :: rest =>
    let signed : Bool × List Char :=
      if c = '-' then (true, rest)
      else if c = '+' then (false, rest)
      else (false, c :: rest)
    if signed.2 = [] then none
    else if signed.2.all Char.isDigit then
      let n : Nat := signed.2.foldl (fun acc d => acc * 10 + (d.toNat - 48)) 0
      some (if signed.1 then -(n : Int) else (n : Int))
    else none

/-- Go `big.Int.Int64`: the low 64 bits of the absolute value as an
`int64`, negated (with `int64` wraparound) when the value is negative. -/
def bigIntInt64 (n : Int) : Int :=
  let low : Nat := n.natAbs % 2 ^ 64
  let v : Int := if low < 2 ^ 63 then (low : Int) else (low : Int) - 2 ^ 64
  if n < 0 then (if v = -(2 ^ 63 : Int) then v else -v) else v

/-- `parseWeiToGwei` (`internal/service/validator.go`): empty string and
parse failures yield 0; otherwise the wei value is divided by `10^9`
with `big.Int.Div` (Euclidean division, which Lean's `Int.ediv` matches)
and converted with `Int64()`. -/
def parseWeiToGwei (weiStr : String) : Int :=
  if weiStr = "" then 0
  else
    match bigIntSetString weiStr with
    | none => 0
    | some wei => bigIntInt64 (Int.ediv wei 1000000000)

/-! Theorems.  Claim theorems are grouped with their helper lemmas,
witnesses and counterexamples. -/

/-- Claim C1, counterexample to the claim as stated: `UpdateFromHeaders`
records `nextAllowed = now + Reset` with no safety margin.  At
`now = 100` with `Remaining = 0`, `Reset = 5`, the recorded deadline is
exactly `105 = now + R`, not `now + R + m` for any positive margin `m`
(the second conjunct rules out every deadline strictly beyond
`now + R`). -/
theorem updateFromHeaders_no_margin :
    (updateFromHeaders ⟨0⟩ (some ⟨0, 5, 0⟩) 100).nextAllowed = 105 ∧
    ¬ 105 < (updateFromHeaders ⟨0⟩ (some ⟨0, 5, 0⟩) 100).nextAllowed := by
  decide

/-- Claim C1 (amended): after `UpdateFromHeaders` observes an update with
`remaining = 0` and reset `R > 0` at time `now`, the recorded deadline is
exactly `now + R` (without any safety margin), and an uncancelled
`WaitAdaptive` started at any `now2 ≥ now` does not return before
`now + R`, regardless of how the token bucket (`bucket`) schedules its
own wait. -/
theorem waitAdaptive_respects_reset (g : GlobalRateLimiter) (i : RateLimitInfo)
    (now now2 : Nat) (bucket : Nat → Nat)
    (hrem : i.remaining = 0) (hres : 0 < i.reset)
    (hbucket : ∀ t, t ≤ bucket t) (hnow : now ≤ now2) :
    (updateFromHeaders g (some i) now).nextAllowed = now + i.reset.toNat ∧
    now + i.reset.toNat ≤
      waitAdaptiveDone (updateFromHeaders g (some i) now) now2 bucket := by
  have hup : updateFromHeaders g (some i) now =
      { g with nextAllowed := now + i.reset.toNat } := by
    simp [updateFromHeaders, hrem, hres]
  have hpos : 0 < i.reset.toNat := by omega
  refine ⟨by rw [hup], ?_⟩
  rw [hup]
  unfold waitAdaptiveDone
  by_cases hcase : now + i.reset.toNat ≠ 0 ∧ now2 < now + i.reset.toNat
  · simpa [hcase] using hbucket (now + i.reset.toNat)
  · have hge : now + i.reset.toNat ≤ now2 := by omega
    calc now + i.reset.toNat ≤ now2 := hge
    _ ≤ bucket now2 := hbucket now2
    _ = waitAdaptiveDone { g with nextAllowed := now + i.reset.toNat } now2 bucket := by
        unfold waitAdaptiveDone
        simp only
        rw [if_neg hcase]

/-- Claim C1, witness for `waitAdaptive_respects_reset` at `now = 100`,
`R = 5`, an identity token bucket and an immediate second call. -/
theorem waitAdaptive_respects_reset_witness :
    (updateFromHeaders ⟨0⟩ (some ⟨0, 5, 0⟩) 100).nextAllowed = 100 + (5 : Int).toNat ∧
    100 + (5 : Int).toNat ≤
      waitAdaptiveDone (updateFromHeaders ⟨0⟩ (some ⟨0, 5, 0⟩) 100) 100 id := by
  exact waitAdaptive_respects_reset ⟨0⟩ ⟨0, 5, 0⟩ 100 100 id rfl (by decide)
    (fun t => Nat.le_refl t) (Nat.le_refl 100)

/-- Helper: once `lastErr` holds the 429 error and every remaining
attempt answers 429, `doLoop` burns all its fuel and returns the
`max retries exceeded` wrapper around that error, having made `fuel`
further `Do` calls. -/
theorem doLoop_all429 (u : Nat → Attempt) (rm rs : Int) (b : String)
    (h : ∀ i, u i = .response 429 rm rs b) :
    ∀ fuel attempt, doLoop u attempt fuel (some (.rateLimited b)) =
      (.error (.maxRetriesExceeded (some (.rateLimited b))), fuel) := by
  intro fuel
  induction fuel with
  | zero => intro attempt; rfl
  | succ n ih =>
    intro attempt
    simp [doLoop, h attempt, ih (attempt + 1)]

/-- Claim C2, counterexample to the claim as stated: with the retry
ceiling 3 and an upstream that always answers 429, `doRequestWithRetry`
performs 4 `Do` calls (the loop runs for `attempt = 0, 1, 2, 3`), and the
worker variant of part_000 also performs 4, so neither variant stops
after exactly 3 attempts. -/
theorem always429_four_attempts :
    (doRequestWithRetry (fun _ => .response 429 0 0 "slow down") 3).2 = 4 ∧
    (doRequestWithRetry (fun _ => .response 429 0 0 "slow down") 3).2 ≠ 3 ∧
    (workerRun (fun _ => .response 429 0 0 "slow down")).2 = 4 := by
  decide

/-- Claim C2 (amended): against an upstream that always answers 429,
`doRequestWithRetry` with ceiling `maxRetries` performs exactly
`maxRetries + 1` attempts (4 when the ceiling is the configured 3) and
returns the terminal `max retries exceeded` error wrapping the last
`rate limited (429)` error — a value distinguishable from the transport
and upstream-status failures; the worker variant performs 4 attempts and
returns an `upstream status 429` error. -/
theorem doRequestWithRetry_always429 (u : Nat → Attempt) (rm rs : Int)
    (b : String) (maxRetries : Nat) (h : ∀ i, u i = .response 429 rm rs b) :
    doRequestWithRetry u maxRetries =
      (.error (.maxRetriesExceeded (some (.rateLimited b))), maxRetries + 1) ∧
    workerRun u = (.error (.upstreamStatus 429 b), 4) := by
  constructor
  · unfold doRequestWithRetry
    simp only [doLoop, h 0, doLoop_all429 u rm rs b h maxRetries 1]
    simp
  · simp [workerRun, workerLoop, h 0, h 1, h 2, h 3]

/-- Claim C2, witness for `doRequestWithRetry_always429` with ceiling 3
and a constant 429 upstream. -/
theorem doRequestWithRetry_always429_witness :
    doRequestWithRetry (fun _ => .response 429 0 0 "b") 3 =
      (.error (.maxRetriesExceeded (some (.rateLimited "b"))), 4) ∧
    workerRun (fun _ => .response 429 0 0 "b") =
      (.error (.upstreamStatus 429 "b"), 4) := by
  exact doRequestWithRetry_always429 (fun _ => .response 429 0 0 "b") 0 0 "b" 3
    (fun _ => rfl)

/-- Claim C3, counterexample to the claim as stated: in
`doRequestWithRetry` a transport-level `Do` failure is not returned
immediately — the loop `continue`s.  With a first attempt failing at the
transport level and a second succeeding, the call returns the success
after 2 attempts instead of the transport error after 1. -/
theorem transport_error_retried :
    doRequestWithRetry
      (fun i => if i = 0 then .netError "connection refused"
                else .response 200 0 0 "ok") 3 = (.ok (200, "ok"), 2) := by
  rfl

/-- Helper: once `lastErr` holds the wrapped transport error and every
remaining attempt fails at the transport level, `doLoop` burns all its
fuel and returns the `max retries exceeded` wrapper around it. -/
theorem doLoop_allNet (u : Nat → Attempt) (msg : String)
    (h : ∀ i, u i = .netError msg) :
    ∀ fuel attempt, doLoop u attempt fuel (some (.httpRequest msg)) =
      (.error (.maxRetriesExceeded (some (.httpRequest msg))), fuel) := by
  intro fuel
  induction fuel with
  | zero => intro attempt; rfl
  | succ n ih =>
    intro attempt
    simp only [doLoop, h attempt, ih (attempt + 1)]

/-- Claim C3 (amended): the two variants differ.  The worker variant of
part_000 returns a transport-level `Do` error immediately, after exactly
one attempt and unwrapped.  `doRequestWithRetry` (part_001) instead
retries a transport failure like a 429: when every attempt fails at the
transport level it performs `maxRetries + 1` attempts and returns the
`max retries exceeded` wrapper around the wrapped transport error. -/
theorem transport_error_behavior :
    (∀ u msg, u 0 = .netError msg →
      workerRun u = (.error (.transport msg), 1)) ∧
    (∀ (u : Nat → Attempt) msg maxRetries, (∀ i, u i = .netError msg) →
      doRequestWithRetry u maxRetries =
        (.error (.maxRetriesExceeded (some (.httpRequest msg))), maxRetries + 1)) := by
  constructor
  · intro u msg h
    simp [workerRun, workerLoop, h]
  · intro u msg maxRetries h
    unfold doRequestWithRetry
    simp only [doLoop, h 0, doLoop_allNet u msg h maxRetries 1]

/-- Claim C3, witness for `transport_error_behavior`: a constant
transport failure, worker variant and retry variant with ceiling 3. -/
theorem transport_error_behavior_witness :
    workerRun (fun _ => .netError "conn") = (.error (.transport "conn"), 1) ∧
    doRequestWithRetry (fun _ => .netError "conn") 3 =
      (.error (.maxRetriesExceeded (some (.httpRequest "conn"))), 4) := by
  exact ⟨transport_error_behavior.1 (fun _ => .netError "conn") "conn" rfl,
    transport_error_behavior.2 (fun _ => .netError "conn") "conn" 3 (fun _ => rfl)⟩

/-- Claim C7, counterexample to the claim as stated: `queueRawRequest`
fails with the `queue full` error when the 100-buffered channel is full,
and with the `request timeout` error when no reply arrives within 30
seconds — both without any context cancellation; the function does not
take a context at all. -/
theorem queueRawRequest_fails_without_cancellation :
    queueRawRequest 100 (some (.ok "body")) = .error .queueFull ∧
    queueRawRequest 0 none = .error .requestTimeout := by
  exact ⟨rfl, rfl⟩

/-- Claim C7 (amended): `queueRawRequest` has exactly two failure modes
of its own, neither tied to the caller's context: an immediate
`queue full` error when the 100-buffered channel is full at enqueue
time, and a `request timeout` error when the worker does not reply
within 30 seconds; when the buffer has room and the worker replies, that
reply is passed through unchanged. -/
theorem queueRawRequest_failure_modes (q : Nat)
    (r : Option (Except GoError String)) (res : Except GoError String) :
    (q < 100 → queueRawRequest q (some res) = res) ∧
    (100 ≤ q → queueRawRequest q r = .error .queueFull) ∧
    (q < 100 → queueRawRequest q none = .error .requestTimeout) := by
  refine ⟨fun h => ?_, fun h => ?_, fun h => ?_⟩ <;>
    simp [queueRawRequest, h, Nat.not_le.mpr h]

/-- Claim C7, witness for `queueRawRequest_failure_modes` at occupancy 5
(pass-through and timeout) and occupancy 100 (queue full). -/
theorem queueRawRequest_failure_modes_witness :
    queueRawRequest 5 (some (.ok "raw")) = .ok "raw" ∧
    queueRawRequest 100 none = .error .queueFull ∧
    queueRawRequest 5 none = .error .requestTimeout := by
  exact ⟨(queueRawRequest_failure_modes 5 none (.ok "raw")).1 (by decide),
    (queueRawRequest_failure_modes 100 none (.ok "raw")).2.1 (by decide),
    (queueRawRequest_failure_modes 5 none (.ok "raw")).2.2 (by decide)⟩

/-- Helper: when the fast-path `Get` misses, `GetOrSet` reaches the
loader (the double-check cannot succeed at the same instant, because a
present entry that `Get` rejected satisfies `now > expiration`). -/
theorem Cache.getOrSet_of_miss {V E : Type} (c : Cache V) (now : Nat)
    (k : String) (l : Except E V) (h : c.get now k = none) :
    c.getOrSet now k l = c.loadStore now k l := by
  cases hf : assocFind c.items k with
  | none => simp [Cache.getOrSet, h, hf]
  | some it =>
    have hexp : now > it.expiration := by
      by_contra hnot
      simp [Cache.get, hf, hnot] at h
    have hnlt : ¬ now < it.expiration := by omega
    simp [Cache.getOrSet, h, hf, hnlt]

/-- Helper: a value just stored with `SetWithTTL` is returned by `Get`
at the same instant. -/
theorem Cache.get_setWithTTL_self {V : Type} (c : Cache V) (now : Nat)
    (k : String) (v : V) (ttl : Nat) :
    (c.setWithTTL now k v ttl).get now k = some v := by
  have hle : ¬ now > now + ttl := by omega
  simp [Cache.get, Cache.setWithTTL, assocSet, assocFind, List.find?, hle]

/-- Helper: a fast-path hit returns the cached value, leaves the state
alone and never reaches the loader. -/
theorem Cache.getOrSet_of_hit {V E : Type} (c : Cache V) (now : Nat)
    (k : String) (v : V) (l : Except E V) (h : c.get now k = some v) :
    c.getOrSet now k l = (.ok v, c, 0) := by
  unfold Cache.getOrSet
  rw [h]

/-- Helper: iterating `GetOrSet` from a state whose entry is fresh keeps
every caller on the fast path. -/
theorem Cache.getOrSetMany_of_hit {V E : Type} (c : Cache V) (now : Nat)
    (k : String) (v : V) (l : Except E V) (h : c.get now k = some v) :
    ∀ n, Cache.getOrSetMany c now k l n = (List.replicate n (.ok v), c, 0) := by
  intro n
  induction n with
  | zero => rfl
  | succ m ih =>
    simp [Cache.getOrSetMany, Cache.getOrSet_of_hit c now k v l h, ih,
      List.replicate_succ]

/-- Helper: a failed loader leaves the cache state untouched, so every
serialized caller reaches the loader in turn. -/
theorem Cache.getOrSetMany_of_error {V E : Type} (c : Cache V) (now : Nat)
    (k : String) (e : E) (h : c.get now k = none) :
    ∀ n, Cache.getOrSetMany c now k (.error e) n =
      (List.replicate n (.error e), c, n) := by
  intro n
  induction n with
  | zero => rfl
  | succ m ih =>
    have h1 : c.getOrSet now k (.error e : Except E V) = (.error e, c, 1) := by
      rw [Cache.getOrSet_of_miss c now k _ h]; rfl
    simp [Cache.getOrSetMany, h1, ih, List.replicate_succ]
    omega

/-- Claim C4, counterexample to the claim as stated: two serialized
callers of `GetOrSet` for the same absent key whose loader fails invoke
the loader twice, not exactly once (the error is never stored, so the
second caller's double-check misses again). -/
theorem single_flight_error_reinvokes :
    (Cache.getOrSetMany (⟨[], 60⟩ : Cache Nat) 0 "k"
      (Except.error "boom" : Except String Nat) 2).2.2 = 2 ∧
    (Cache.getOrSetMany (⟨[], 60⟩ : Cache Nat) 0 "k"
      (Except.error "boom" : Except String Nat) 2).2.2 ≠ 1 := by
  decide

/-- Claim C4 (amended): for `n ≥ 1` callers of `GetOrSet` serialized by
the cache mutex at the same instant, for the same key with no fresh
entry: when the loader succeeds it runs exactly once and every caller
receives the same value (the first stores it, the rest hit the cache);
when the loader fails every caller receives the same error but the
loader runs once per caller (`n` times), because the failure is never
cached. -/
theorem getOrSetMany_single_flight {V E : Type} (c : Cache V) (now : Nat)
    (k : String) (n : Nat) (hmiss : c.get now k = none) (hn : 0 < n) :
    (∀ v : V, Cache.getOrSetMany c now k (Except.ok v : Except E V) n =
      (List.replicate n (.ok v), c.setWithTTL now k v c.ttl, 1)) ∧
    (∀ e : E, Cache.getOrSetMany c now k (Except.error e : Except E V) n =
      (List.replicate n (.error e), c, n)) := by
  constructor
  · intro v
    obtain ⟨m, rfl⟩ : ∃ m, n = m + 1 := ⟨n - 1, by omega⟩
    have h1 : c.getOrSet now k (Except.ok v : Except E V) =
        (.ok v, c.setWithTTL now k v c.ttl, 1) := by
      rw [Cache.getOrSet_of_miss c now k _ hmiss]; rfl
    have h2 := Cache.getOrSetMany_of_hit (c.setWithTTL now k v c.ttl) now k v
      (Except.ok v : Except E V) (Cache.get_setWithTTL_self c now k v c.ttl) m
    simp only [Cache.getOrSetMany, h1]
    rw [h2]
    simp [List.replicate_succ]
  · intro e
    exact Cache.getOrSetMany_of_error c now k e hmiss n

/-- Claim C4, witness for `getOrSetMany_single_flight`: an empty cache
with TTL 60, two callers, a succeeding loader and a failing one. -/
theorem getOrSetMany_single_flight_witness :
    (⟨[], 60⟩ : Cache Nat).get 0 "k" = none ∧ 0 < 2 ∧
    Cache.getOrSetMany (⟨[], 60⟩ : Cache Nat) 0 "k"
      (Except.ok 7 : Except String Nat) 2 =
      (List.replicate 2 (.ok 7), (⟨[], 60⟩ : Cache Nat).setWithTTL 0 "k" 7 60, 1) ∧
    Cache.getOrSetMany (⟨[], 60⟩ : Cache Nat) 0 "k"
      (Except.error "boom" : Except String Nat) 2 =
      (List.replicate 2 (.error "boom"), ⟨[], 60⟩, 2) := by
  refine ⟨rfl, by decide, ?_, ?_⟩
  · exact (getOrSetMany_single_flight (V := Nat) (E := String)
      ⟨[], 60⟩ 0 "k" 2 rfl (by decide)).1 7
  · exact (getOrSetMany_single_flight (V := Nat) (E := String)
      ⟨[], 60⟩ 0 "k" 2 rfl (by decide)).2 "boom"

/-- Claim C5 (confirmed): when the loader fails for a key with no fresh
entry, `GetOrSet` propagates exactly that error, invokes the loader
(count 1) and returns the cache state unchanged; consequently a
subsequent call for the same key at any later time invokes the loader
again, with the same outcome. -/
theorem getOrSet_error_not_cached {V E : Type} (c : Cache V) (now now2 : Nat)
    (k : String) (e : E) (hmiss : c.get now k = none) (hle : now ≤ now2) :
    c.getOrSet now k (.error e : Except E V) = (.error e, c, 1) ∧
    c.getOrSet now2 k (.error e : Except E V) = (.error e, c, 1) := by
  have h2 : c.get now2 k = none := by
    cases hf : assocFind c.items k with
    | none => simp [Cache.get, hf]
    | some it =>
      have hexp : now > it.expiration := by
        by_contra hnot
        simp [Cache.get, hf, hnot] at hmiss
      have hexp2 : now2 > it.expiration := by omega
      simp [Cache.get, hf, hexp2]
  exact ⟨by rw [Cache.getOrSet_of_miss c now k _ hmiss]; rfl,
    by rw [Cache.getOrSet_of_miss c now2 k _ h2]; rfl⟩

/-- Claim C5, witness for `getOrSet_error_not_cached`: empty cache, a
failing loader, and a retry 10 time units later. -/
theorem getOrSet_error_not_cached_witness :
    Cache.getOrSet (⟨[], 60⟩ : Cache Nat) 0 "k"
      (Except.error "boom" : Except String Nat) =
      (.error "boom", ⟨[], 60⟩, 1) ∧
    Cache.getOrSet (⟨[], 60⟩ : Cache Nat) 10 "k"
      (Except.error "boom" : Except String Nat) =
      (.error "boom", ⟨[], 60⟩, 1) := by
  exact getOrSet_error_not_cached (V := Nat) (E := String)
    ⟨[], 60⟩ 0 10 "k" "boom" rfl (by decide)

/-- Claim C6 (confirmed): for both cache implementations, an entry
stored at `t0` is returned by `Get` at any time strictly before its
expiration and missing at any time strictly after it, and a janitor /
cleanup sweep run at any time `tc ≤ t1` does not change the answer —
expiry is decided inline by `Get`, not by the sweep. -/
theorem ttl_expiry_semantics {V : Type} (c : MemoryCache V) (c2 : Cache V)
    (k : String) (v : V) (t0 t1 t2 tc T : Nat)
    (h1 : t1 < t0 + c.ttl) (h2 : t0 + c.ttl < t2) (hc : tc ≤ t1)
    (h1b : t1 < t0 + T) (h2b : t0 + T < t2) :
    ((c.set t0 k v).get t1 k).1 = some v ∧
    ((c.set t0 k v).get t2 k).1 = none ∧
    (((c.set t0 k v).janitorSweep tc).get t1 k).1 = some v ∧
    (c2.setWithTTL t0 k v T).get t1 k = some v ∧
    (c2.setWithTTL t0 k v T).get t2 k = none ∧
    ((c2.setWithTTL t0 k v T).cleanup tc).get t1 k = some v := by
  have hn1 : ¬ t1 > t0 + c.ttl := by omega
  have hn2 : t2 > t0 + c.ttl := by omega
  have hnc : ¬ tc > t0 + c.ttl := by omega
  have hn1b : ¬ t1 > t0 + T := by omega
  have hn2b : t2 > t0 + T := by omega
  have hncb : ¬ tc > t0 + T := by omega
  refine ⟨?_, ?_, ?_, ?_, ?_, ?_⟩
  · simp [MemoryCache.set, MemoryCache.get, List.find?, hn1]
  · simp [MemoryCache.set, MemoryCache.get, List.find?, hn2]
  · simp [MemoryCache.set, MemoryCache.janitorSweep, MemoryCache.get,
      List.filter_cons, List.find?, hnc, hn1]
  · simp [Cache.setWithTTL, Cache.get, assocSet, assocFind, List.find?, hn1b]
  · simp [Cache.setWithTTL, Cache.get, assocSet, assocFind, List.find?, hn2b]
  · simp [Cache.setWithTTL, Cache.cleanup, Cache.get, assocSet, assocFind,
      List.filter_cons, List.find?, hncb, hn1b]

/-- Claim C6, witness for `ttl_expiry_semantics`: TTL 100, store at
t = 0, reads at t = 50 and t = 150, sweep at t = 40 — the spec's own
100ms/50ms/150ms scenario. -/
theorem ttl_expiry_semantics_witness :
    (((⟨[], 100⟩ : MemoryCache Nat).set 0 "k" 1).get 50 "k").1 = some 1 ∧
    (((⟨[], 100⟩ : MemoryCache Nat).set 0 "k" 1).get 150 "k").1 = none ∧
    ((((⟨[], 100⟩ : MemoryCache Nat).set 0 "k" 1).janitorSweep 40).get 50 "k").1 = some 1 ∧
    ((⟨[], 100⟩ : Cache Nat).setWithTTL 0 "k" 1 100).get 50 "k" = some 1 ∧
    ((⟨[], 100⟩ : Cache Nat).setWithTTL 0 "k" 1 100).get 150 "k" = none ∧
    (((⟨[], 100⟩ : Cache Nat).setWithTTL 0 "k" 1 100).cleanup 40).get 50 "k" = some 1 := by
  exact ttl_expiry_semantics (V := Nat) ⟨[], 100⟩ ⟨[], 100⟩ "k" 1 0 50 150 40 100
    (by decide) (by decide) (by decide) (by decide) (by decide)

/-- Helper: sorting with `sort.Ints` maps permuted inputs to the same
sorted list (aside from length, the only part of the input
`generateCacheKey` depends on). -/
theorem mergeSort_eq_of_perm (l₁ l₂ : List Int) (h : l₁.Perm l₂) :
    l₁.mergeSort (fun a b => a ≤ b) = l₂.mergeSort (fun a b => a ≤ b) := by
  haveI : IsAntisymm Int (fun a b => (decide (a ≤ b)) = true) :=
    ⟨by intro a b ha hb; simp at ha hb; omega⟩
  apply List.eq_of_perm_of_sorted
    (r := fun a b : Int => (decide (a ≤ b)) = true)
  · exact ((List.mergeSort_perm l₁ _).trans h).trans
      (List.mergeSort_perm l₂ _).symm
  · exact List.sorted_mergeSort
      (by intro a b c hab hbc; simp at hab hbc ⊢; omega)
      (by intro a b; simp [Bool.or_eq_true]; omega) l₁
  · exact List.sorted_mergeSort
      (by intro a b c hab hbc; simp at hab hbc ⊢; omega)
      (by intro a b; simp [Bool.or_eq_true]; omega) l₂

/-- Claim C8, counterexample to the claim as stated: `generateCacheKey`
sorts but does not deduplicate, so the lists `[1, 1]` and `[1]`, which
denote the same ID set, produce different keys. -/
theorem generateCacheKey_not_dedup :
    generateCacheKey [1, 1] ≠ generateCacheKey [1] ∧
    generateCacheKey [1, 1] = "validators:1,1" ∧
    generateCacheKey [1] = "validators:1" := by
  have h1 : generateCacheKey [1, 1] = "validators:1,1" := by
    simp [generateCacheKey, List.mergeSort]
    decide
  have h2 : generateCacheKey [1] = "validators:1" := by
    simp [generateCacheKey, List.mergeSort]
    decide
  refine ⟨?_, h1, h2⟩
  rw [h1, h2]
  decide

/-- Claim C8 (amended): `generateCacheKey` is invariant under
reordering — any two lists that are permutations of each other (in
particular, with the same multiplicity of every ID) yield the same key,
in both the short branch and the hashed branch (first 8 bytes of the
SHA-256 digest, taken when the list has more than 10 entries) — but it
does not deduplicate: lists denoting the same set with different
multiplicities can differ. -/
theorem generateCacheKey_perm_invariant (l₁ l₂ : List Int) (h : l₁.Perm l₂) :
    generateCacheKey l₁ = generateCacheKey l₂ := by
  unfold generateCacheKey
  rw [mergeSort_eq_of_perm l₁ l₂ h, h.length_eq]

/-- Claim C8, witness for `generateCacheKey_perm_invariant` on the
permutation `[2, 1] ~ [1, 2]`. -/
theorem generateCacheKey_perm_invariant_witness :
    ([2, 1] : List Int).Perm [1, 2] ∧
    generateCacheKey [2, 1] = generateCacheKey [1, 2] :=
  ⟨by decide, generateCacheKey_perm_invariant [2, 1] [1, 2] (by decide)⟩

/-- Helper: the per-ID loop accepts exactly the lists whose elements are
all non-negative, pairwise distinct and absent from `seen`. -/
theorem checkIds_none_iff (l : List Int) : ∀ seen,
    checkIds l seen = none ↔
      ((∀ x ∈ l, 0 ≤ x) ∧ l.Nodup ∧ ∀ x ∈ l, x ∉ seen) := by
  induction l with
  | nil => intro seen; simp [checkIds]
  | cons id rest ih =>
    intro seen
    rw [show checkIds (id :: rest) seen =
      (if id < 0 then
        some ⟨"validatorIds", "validator IDs must be non-negative integers"⟩
      else if id ∈ seen then
        some ⟨"validatorIds", "validator IDs must be unique"⟩
      else checkIds rest (id :: seen)) from rfl]
    by_cases hneg : id < 0
    · simp only [if_pos hneg]
      constructor
      · intro h; exact absurd h (by simp)
      · rintro ⟨hpos, -, -⟩
        exact absurd (hpos id (by simp)) (by omega)
    · simp only [if_neg hneg]
      by_cases hseen : id ∈ seen
      · simp only [if_pos hseen]
        constructor
        · intro h; exact absurd h (by simp)
        · rintro ⟨-, -, hnm⟩
          exact absurd hseen (hnm id (by simp))
      · simp only [if_neg hseen]
        rw [ih (id :: seen)]
        constructor
        · rintro ⟨hpos, hnd, hnm⟩
          refine ⟨?_, ?_, ?_⟩
          · intro x hx
            rcases List.mem_cons.mp hx with rfl | hx2
            · omega
            · exact hpos x hx2
          · refine List.nodup_cons.mpr ⟨?_, hnd⟩
            intro hid
            exact (hnm id hid) (List.mem_cons_self id seen)
          · intro x hx
            rcases List.mem_cons.mp hx with rfl | hx2
            · exact hseen
            · intro hxs
              exact (hnm x hx2) (List.mem_cons_of_mem id hxs)
        · rintro ⟨hpos, hnd, hnm⟩
          obtain ⟨hidrest, hndrest⟩ := List.nodup_cons.mp hnd
          refine ⟨?_, hndrest, ?_⟩
          · intro x hx; exact hpos x (List.mem_cons_of_mem id hx)
          · intro x hx hmem
            rcases List.mem_cons.mp hmem with rfl | hxs
            · exact hidrest hx
            · exact (hnm x (List.mem_cons_of_mem id hx)) hxs

/-- Claim C9 (confirmed): `validateValidatorRequest` returns `nil`
exactly when the ID list is non-empty, of length at most
`MaxValidatorIDs`, with all IDs non-negative and pairwise distinct, and
the chain is `"mainnet"` or `"hoodi"`; in every other case it returns a
(non-nil) `ValidationError`. -/
theorem validateValidatorRequest_none_iff (m : Nat) (req : ValidatorRequest) :
    validateValidatorRequest m req = none ↔
      (req.validatorIds ≠ [] ∧ req.validatorIds.length ≤ m ∧
       (∀ x ∈ req.validatorIds, 0 ≤ x) ∧ req.validatorIds.Nodup ∧
       (req.chain = "mainnet" ∨ req.chain = "hoodi")) := by
  unfold validateValidatorRequest
  by_cases h0 : req.validatorIds.length = 0
  · have hnil : req.validatorIds = [] := List.length_eq_zero.mp h0
    simp [h0, hnil]
  · by_cases hlen : m < req.validatorIds.length
    · rw [if_neg h0, if_pos hlen]
      constructor
      · intro h; exact absurd h (by simp)
      · rintro ⟨-, hle, -⟩; omega
    · rw [if_neg h0, if_neg hlen]
      have hne : req.validatorIds ≠ [] := by
        intro hh; exact h0 (by simp [hh])
      have hle : req.validatorIds.length ≤ m := by omega
      cases hchk : checkIds req.validatorIds [] with
      | some e =>
        simp only [hchk]
        constructor
        · intro h; exact absurd h (by simp)
        · rintro ⟨-, -, hpos, hnd, -⟩
          have hnone := (checkIds_none_iff req.validatorIds []).mpr
            ⟨hpos, hnd, by simp⟩
          rw [hchk] at hnone
          exact Option.noConfusion hnone
      | none =>
        simp only [hchk]
        obtain ⟨hpos, hnd, -⟩ := (checkIds_none_iff req.validatorIds []).mp hchk
        by_cases hch : req.chain = "mainnet" ∨ req.chain = "hoodi"
        · have hns : req.chain ≠ "" := by
            rcases hch with h | h <;> simp [h]
          have hcond : ¬ (req.chain ≠ "mainnet" ∧ req.chain ≠ "hoodi") := by
            tauto
          rw [if_neg hns, if_neg hcond]
          exact ⟨fun _ => ⟨hne, hle, hpos, hnd, hch⟩, fun _ => rfl⟩
        · have hcond : req.chain ≠ "mainnet" ∧ req.chain ≠ "hoodi" := by tauto
          by_cases hns : req.chain = ""
          · rw [if_pos hns]
            simp [hch]
          · rw [if_neg hns, if_pos hcond]
            simp [hch]

/-- Claim C10 (confirmed): for every string that Go's
`big.Int.SetString(s, 10)` parses to a non-negative integer `n`,
`parseWeiToGwei` returns the `Int64` truncation of the exact quotient
`n / 10^9` (Euclidean division), and returns the quotient itself
whenever it fits in an `int64`; the empty string and every unparsable
string yield 0. -/
theorem parseWeiToGwei_spec :
    (∀ s n, bigIntSetString s = some n → 0 ≤ n →
      parseWeiToGwei s = bigIntInt64 (Int.ediv n 1000000000) ∧
      (Int.ediv n 1000000000 < 2 ^ 63 →
        parseWeiToGwei s = Int.ediv n 1000000000)) ∧
    parseWeiToGwei "" = 0 ∧
    (∀ s, bigIntSetString s = none → parseWeiToGwei s = 0) := by
  refine ⟨?_, rfl, ?_⟩
  · intro s n hp hn
    have hne : s ≠ "" := by
      intro h
      subst h
      rw [show bigIntSetString "" = none from rfl] at hp
      exact Option.noConfusion hp
    have heq : parseWeiToGwei s = bigIntInt64 (Int.ediv n 1000000000) := by
      unfold parseWeiToGwei
      rw [if_neg hne, hp]
    refine ⟨heq, fun hlt => ?_⟩
    rw [heq]
    have hq : 0 ≤ Int.ediv n 1000000000 := Int.ediv_nonneg hn (by norm_num)
    simp only [bigIntInt64]
    split_ifs <;> omega
  · intro s hp
    unfold parseWeiToGwei
    by_cases hse : s = ""
    · rw [if_pos hse]
    · rw [if_neg hse, hp]

/-- Claim C10, witness for `parseWeiToGwei_spec`: 5 gwei worth of wei
parses and divides exactly. -/
theorem parseWeiToGwei_spec_witness :
    bigIntSetString "5000000000" = some 5000000000 ∧
    parseWeiToGwei "5000000000" = Int.ediv 5000000000 1000000000 :=
  ⟨by decide, (parseWeiToGwei_spec.1 "5000000000" 5000000000 (by decide)
    (by decide)).2 (by decide)⟩

end ValidatorDashboard
